import Mathlib

-- Verification development for the consolidation pipeline in src/main.py of
-- jdanas/consolidate-ship-data.  The script reads a wide factor/score CSV and
-- an optional AIS event log, reshapes the wide table into long records,
-- aggregates them into per-hour JSON records and writes the result.
-- The definitions below embed the script; machine floats of the CSV cells are
-- modelled as rationals, pandas dataframes as lists of rows.

-- ## Python string primitives used by the script

-- Characters removed by Python str.strip with no arguments (ASCII whitespace).
def pyIsSpace (c : Char) : Bool :=
  c = ' ' || c = '\t' || c = '\n' || c = '\r' || c = '\x0b' || c = '\x0c'

def stripLeftChars (l : List Char) : List Char := l.dropWhile pyIsSpace

def stripRightChars (l : List Char) : List Char :=
  (l.reverse.dropWhile pyIsSpace).reverse

-- Model of Python str.strip().
def pyStripChars (l : List Char) : List Char := stripRightChars (stripLeftChars l)

def pyStripS (s : String) : String := ⟨pyStripChars s.data⟩

-- Model of Python str.lower(), character by character.
def pyLowerS (s : String) : String := ⟨s.data.map Char.toLower⟩

-- Model of line 53-54 of src/main.py: the four replace calls send the en dash
-- U+2013 and the em dash U+2014 (each written twice in the source, once
-- escaped and once literally) to the ASCII hyphen.
def dashFix (c : Char) : Char :=
  if c = '–' || c = '—' then '-' else c

-- normalize_time_range (src/main.py lines 53-54): replace dashes, remove the
-- space character U+0020, then strip outer whitespace.
def normalize_time_range (s : String) : String :=
  ⟨pyStripChars ((s.data.map dashFix).filter (fun c => c != ' '))⟩

-- format_category_name (src/main.py lines 99-100): strip, lowercase, replace
-- spaces by underscores; a missing (non-string) category yields "unknown".
def format_category_name (name : Option String) : String :=
  match name with
  | some s => ⟨((pyStripChars s.data).map Char.toLower).map (fun c => if c = ' ' then '_' else c)⟩
  | none => "unknown"

-- ## Python int() parsing, for int(time_range.split(':')[0]) on line 106

-- Python allows a single underscore between digits of an integer literal.
def digitsTail : List Char → Bool
  | [] => true
  | '_' :: c :: rest => c.isDigit && digitsTail rest
  | c :: rest => c.isDigit && digitsTail rest

def digitsOk : List Char → Bool
  | [] => false
  | c :: rest => c.isDigit && digitsTail rest

def digitsVal (l : List Char) : Nat :=
  (l.filter (fun c => c != '_')).foldl (fun n c => 10 * n + (c.toNat - '0'.toNat)) 0

def pyIntFrom (l : List Char) : Option Int :=
  match l with
  | '+' :: rest => if digitsOk rest then some ((digitsVal rest : Nat) : Int) else none
  | '-' :: rest => if digitsOk rest then some (-((digitsVal rest : Nat) : Int)) else none
  | _ => if digitsOk l then some ((digitsVal l : Nat) : Int) else none

-- Model of Python int(s): surrounding whitespace is tolerated, then an
-- optional sign and digits with optional single underscores between them.
def pyInt (s : String) : Option Int := pyIntFrom (pyStripChars s.data)

-- Model of time_range.split(':')[0]: the text before the first colon.
def beforeColon (s : String) : String := ⟨s.data.takeWhile (fun c => c != ':')⟩

-- ## Code-point lexicographic string order, as used by Python sorted()

def lexLe : List Char → List Char → Bool
  | [], _ => true
  | _ :: _, [] => false
  | a :: as, b :: bs =>
    if a.toNat < b.toNat then true
    else if a.toNat = b.toNat then lexLe as bs
    else false

def strLe (s t : String) : Prop := lexLe s.data t.data = true

instance : DecidableRel strLe := fun s t => instDecidableEqBool (lexLe s.data t.data) true

-- ## Data model

-- One row of the wide factor dataframe after the header handling of
-- src/main.py lines 12-23: a possibly missing category cell, a possibly
-- missing factor-name cell, and the remaining cells aligned with cols.
structure WideRow where
  category : Option String
  factor : Option String
  cells : List (Option ℚ)
deriving DecidableEq

-- The wide factor dataframe: the stripped non-id column headers and the rows.
structure FactorsDF where
  cols : List String
  rows : List WideRow
deriving DecidableEq

-- One reshaped (melted) record, after dropna(subset=['Factor', 'value']).
structure FactorRecord where
  category : Option String
  factor : String
  time_range : String
  value : ℚ
deriving DecidableEq

-- A parsed AIS timestamp: its hour of day and its display rendering str(ts).
structure AISStamp where
  hour : Nat
  display : String
deriving DecidableEq

-- One raw AIS row: the parse result of its Timestamp cell (none when
-- pd.to_datetime coerced it to NaT) and the remaining columns.
structure AISRow where
  timestamp : Option AISStamp
  fields : List (String × String)
deriving DecidableEq

-- One loaded AIS record after dropna(subset=['Timestamp']).
structure EventRecord where
  ts : AISStamp
  fields : List (String × String)
deriving DecidableEq

-- One serialized AIS entry of ais_data, its Timestamp cast to str.
structure AISOut where
  timestampStr : String
  fields : List (String × String)
deriving DecidableEq

-- The output unit, src/main.py lines 114-122.  The four factor buckets and
-- the final-score map are Python dicts, modelled as association lists with
-- in-place update on key collision.
structure HourlyRecord where
  time_range : String
  external_environment_factors : List (String × ℚ)
  human_factors : List (String × ℚ)
  internal_environment_factors : List (String × ℚ)
  ship_factors : List (String × ℚ)
  ais_data : List AISOut
  final_score : Option ℚ
deriving DecidableEq

-- Failure modes of the run: the required factor CSV being absent
-- (FileNotFoundError, src/main.py lines 12 and 167-169) and the TypeError
-- raised on line 141 when the canonical category names a non-dict key of
-- hourly_record; both abort before the output file is written.
inductive Err where
  | fileNotFound (filename : String)
  | typeError
deriving DecidableEq

-- ## Python dict operations (assignment keeps the position of an existing key)

def insertAssoc {β : Type} (m : List (String × β)) (k : String) (v : β) : List (String × β) :=
  match m with
  | [] => [(k, v)]
  | (k2, v2) :: rest => if k2 = k then (k, v) :: rest else (k2, v2) :: insertAssoc rest k v

def lookupAssoc {β : Type} (m : List (String × β)) (k : String) : Option β :=
  match m with
  | [] => none
  | (k2, v2) :: rest => if k2 = k then some v2 else lookupAssoc rest k

-- ## Factor table preparation (src/main.py lines 26-46)

-- Forward fill of the Factor Category column (line 26): an empty cell takes
-- the nearest preceding non-empty value; leading empty cells stay empty.
def ffillRows (last : Option String) : List WideRow → List WideRow
  | [] => []
  | r :: rs =>
    match r.category with
    | some v => r :: ffillRows (some v) rs
    | none => { r with category := last } :: ffillRows last rs

-- A row dropped by dropna(how='all') on line 29: every cell missing.
def rowAllNa (r : WideRow) : Bool :=
  r.category.isNone && r.factor.isNone && r.cells.all (fun c => c.isNone)

def prepareRows (df : FactorsDF) : List WideRow :=
  (ffillRows none df.rows).filter (fun r => !(rowAllNa r))

-- The time-column heuristic of line 33: the header contains a colon and a
-- hyphen (the two id columns are separated structurally in FactorsDF).
def isTimeCol (c : String) : Bool := c.data.contains ':' && c.data.contains '-'

def timeVars (df : FactorsDF) : List String := df.cols.filter isTimeCol

def cellAt (df : FactorsDF) (c : String) (r : WideRow) : Option ℚ :=
  match df.cols.findIdx? (fun c2 => c2 == c) with
  | some i => (r.cells.get? i).join
  | none => none

-- One melted cell (lines 38-46): the record survives only when both the
-- factor name and the value are present.
def meltCell (df : FactorsDF) (c : String) (r : WideRow) : Option FactorRecord :=
  match r.factor, cellAt df c r with
  | some f, some v => some ⟨r.category, f, c, v⟩
  | _, _ => none

-- The melted long dataframe, in pandas melt order: column major.
def factorRecords (df : FactorsDF) : List FactorRecord :=
  (timeVars df).flatMap (fun c => (prepareRows df).filterMap (meltCell df c))

def labels (df : FactorsDF) : List String := (factorRecords df).map (·.time_range)

-- pandas Series.unique keeps the first occurrence of each label.
def uniqueFirstAux (seen : List String) : List String → List String
  | [] => []
  | a :: l => if seen.contains a then uniqueFirstAux seen l else a :: uniqueFirstAux (a :: seen) l

def uniqueFirst (l : List String) : List String := uniqueFirstAux [] l

-- sorted(factors_long_df['time_range'].unique()) on line 94.
def sortedLabels (df : FactorsDF) : List String :=
  List.insertionSort strLe (uniqueFirst (labels df))

-- ## Final score extraction (src/main.py lines 56-70)

def isFinalScoreRow (r : WideRow) : Bool :=
  match r.category with
  | some s => pyLowerS (pyStripS s) == "final score"
  | none => false

-- The first row whose stripped lowercase category is "final score" feeds the
-- map; each time column with a present value inserts its normalized header.
def finalScoreMap (df : FactorsDF) : List (String × ℚ) :=
  match (prepareRows df).find? isFinalScoreRow with
  | none => []
  | some row =>
    (timeVars df).foldl (fun m c =>
      if df.cols.contains c then
        match cellAt df c row with
        | some v => insertAssoc m (normalize_time_range c) v
        | none => m
      else m) []

-- ## AIS loading (src/main.py lines 77-90)

-- A missing AIS.csv yields an empty dataframe; rows whose Timestamp failed to
-- parse are dropped.
def loadAIS : Option (List AISRow) → List EventRecord
  | none => []
  | some rows => rows.filterMap (fun r => r.timestamp.map (fun t => ⟨t, r.fields⟩))

-- The ais_data entries of one bucket (lines 124-129): rows of the matching
-- hour, the Timestamp column cast to its display string.
def aisDataFor (ais : List EventRecord) (h : Int) : List AISOut :=
  if ais.isEmpty then []
  else (ais.filter (fun e => ((e.ts.hour : Int) == h))).map (fun e => ⟨e.ts.display, e.fields⟩)

-- ## Hourly aggregation (src/main.py lines 94-147)

def knownBuckets : List String :=
  ["external_environment_factors", "human_factors", "internal_environment_factors", "ship_factors"]

-- Line 140 tests membership of the canonical category among all keys of
-- hourly_record.  For the four dict-valued keys the assignment of line 141
-- inserts the factor; for the three remaining keys (time_range holds a str,
-- ais_data a list, final_score a float or None) the item assignment raises
-- TypeError, which aborts the whole run; any other category only warns.
def insertFactorRecord (hr : HourlyRecord) (r : FactorRecord) : Except Err HourlyRecord :=
  if format_category_name r.category = "external_environment_factors" then
    .ok { hr with external_environment_factors :=
            insertAssoc hr.external_environment_factors (pyStripS r.factor) r.value }
  else if format_category_name r.category = "human_factors" then
    .ok { hr with human_factors := insertAssoc hr.human_factors (pyStripS r.factor) r.value }
  else if format_category_name r.category = "internal_environment_factors" then
    .ok { hr with internal_environment_factors :=
            insertAssoc hr.internal_environment_factors (pyStripS r.factor) r.value }
  else if format_category_name r.category = "ship_factors" then
    .ok { hr with ship_factors := insertAssoc hr.ship_factors (pyStripS r.factor) r.value }
  else if format_category_name r.category = "time_range"
       || format_category_name r.category = "ais_data"
       || format_category_name r.category = "final_score" then
    .error Err.typeError
  else
    .ok hr

def insertAll (hr : HourlyRecord) : List FactorRecord → Except Err HourlyRecord
  | [] => .ok hr
  | r :: rs =>
    match insertFactorRecord hr r with
    | .ok hr2 => insertAll hr2 rs
    | .error e => .error e

-- One bucket (lines 102-147): the empty buckets, the matching AIS rows, the
-- normalized final-score lookup, then every matching factor record inserted
-- in melt order.
def buildOne (recs : List FactorRecord) (fsMap : List (String × ℚ)) (ais : List EventRecord)
    (tr : String) (h : Int) : Except Err HourlyRecord :=
  insertAll
    { time_range := tr
      external_environment_factors := []
      human_factors := []
      internal_environment_factors := []
      ship_factors := []
      ais_data := aisDataFor ais h
      final_score := lookupAssoc fsMap (normalize_time_range tr) }
    (recs.filter (fun r => r.time_range == tr))

-- The main loop over the sorted distinct time ranges: a label whose leading
-- text before the colon does not parse as an int is skipped (lines 104-109);
-- every surviving label appends exactly one record.
def buildAll (recs : List FactorRecord) (fsMap : List (String × ℚ)) (ais : List EventRecord) :
    List String → Except Err (List HourlyRecord)
  | [] => .ok []
  | tr :: rest =>
    match pyInt (beforeColon tr) with
    | none => buildAll recs fsMap ais rest
    | some h =>
      match buildOne recs fsMap ais tr h with
      | .error e => .error e
      | .ok hr =>
        match buildAll recs fsMap ais rest with
        | .error e => .error e
        | .ok hrs => .ok (hr :: hrs)

-- ## The whole run (create_consolidated_json)

-- The factors argument is none when 4-21-day-result.csv is absent, in which
-- case read_csv raises FileNotFoundError before anything else happens; the
-- AIS argument is none when AIS.csv is absent.  A returned error means the
-- run aborted with a printed message and no output file.
def run (factorsFile : Option FactorsDF) (aisFile : Option (List AISRow)) :
    Except Err (List HourlyRecord) :=
  match factorsFile with
  | none => .error (Err.fileNotFound "4-21-day-result.csv")
  | some df => buildAll (factorRecords df) (finalScoreMap df) (loadAIS aisFile) (sortedLabels df)

-- ## JSON serialization (src/main.py lines 150-153)

inductive Json where
  | null
  | num (q : ℚ)
  | str (s : String)
  | arr (elems : List Json)
  | obj (fields : List (String × Json))

def bucketJson (d : List (String × ℚ)) : Json :=
  Json.obj (d.map (fun p => (p.1, Json.num p.2)))

def serializeAISOut (a : AISOut) : Json :=
  Json.obj (("Timestamp", Json.str a.timestampStr) :: a.fields.map (fun p => (p.1, Json.str p.2)))

def serializeHourly (hr : HourlyRecord) : Json :=
  Json.obj
    [ ("time_range", Json.str hr.time_range)
    , ("external_environment_factors", bucketJson hr.external_environment_factors)
    , ("human_factors", bucketJson hr.human_factors)
    , ("internal_environment_factors", bucketJson hr.internal_environment_factors)
    , ("ship_factors", bucketJson hr.ship_factors)
    , ("ais_data", Json.arr (hr.ais_data.map serializeAISOut))
    , ("final_score", match hr.final_score with | some q => Json.num q | none => Json.null) ]

def serializeRecords (l : List HourlyRecord) : Json := Json.arr (l.map serializeHourly)

-- The JSON artifact actually written: none on the error paths (both except
-- handlers of lines 167-171 print and fall through without writing).
def writtenOutput (res : Except Err (List HourlyRecord)) : Option Json :=
  match res with
  | .ok l => some (serializeRecords l)
  | .error _ => none

-- ## Helper views used by the theorems

def bucketOf (hr : HourlyRecord) (b : String) : List (String × ℚ) :=
  if b = "external_environment_factors" then hr.external_environment_factors
  else if b = "human_factors" then hr.human_factors
  else if b = "internal_environment_factors" then hr.internal_environment_factors
  else if b = "ship_factors" then hr.ship_factors
  else []

def specialKeys : List String := ["time_range", "ais_data", "final_score"]

def objField (fields : List (String × Json)) (k : String) : Option Json :=
  match fields with
  | [] => none
  | (k2, v) :: rest => if k2 = k then some v else objField rest k

-- Decision that the serialized JSON array contains a record of the given
-- time_range whose bucket b maps factor f to the number v.
def Json.hasFactor (j : Json) (tr b f : String) (v : ℚ) : Bool :=
  match j with
  | Json.arr recs =>
    recs.any (fun rec =>
      match rec with
      | Json.obj flds =>
        (match objField flds "time_range" with
         | some (Json.str s) => s = tr
         | _ => false)
        &&
        (match objField flds b with
         | some (Json.obj bf) =>
           bf.any (fun p => p.1 = f && match p.2 with | Json.num q => q = v | _ => false)
         | _ => false)
      | _ => false)
  | _ => false

-- ## Preservation lemmas for the insertion loop

theorem insertFactorRecord_preserve {hr : HourlyRecord} {r : FactorRecord} {hr2 : HourlyRecord}
    (h : insertFactorRecord hr r = .ok hr2) :
    hr2.time_range = hr.time_range ∧ hr2.ais_data = hr.ais_data ∧
      hr2.final_score = hr.final_score := by
  unfold insertFactorRecord at h
  split_ifs at h <;> simp_all <;> simp [← h]

theorem insertAll_preserve : ∀ {rs : List FactorRecord} {hr hr2 : HourlyRecord},
    insertAll hr rs = .ok hr2 →
    hr2.time_range = hr.time_range ∧ hr2.ais_data = hr.ais_data ∧
      hr2.final_score = hr.final_score := by
  intro rs
  induction rs with
  | nil =>
    intro hr hr2 h
    simp only [insertAll] at h
    cases h
    exact ⟨rfl, rfl, rfl⟩
  | cons r rs ih =>
    intro hr hr2 h
    simp only [insertAll] at h
    cases h2 : insertFactorRecord hr r with
    | error e => rw [h2] at h; cases h
    | ok hrm =>
      rw [h2] at h
      obtain ⟨a1, a2, a3⟩ := ih h
      obtain ⟨b1, b2, b3⟩ := insertFactorRecord_preserve h2
      exact ⟨a1.trans b1, a2.trans b2, a3.trans b3⟩

theorem buildOne_preserve {recs : List FactorRecord} {fsMap : List (String × ℚ)}
    {ais : List EventRecord} {tr : String} {h : Int} {hr : HourlyRecord}
    (hb : buildOne recs fsMap ais tr h = .ok hr) :
    hr.time_range = tr ∧ hr.ais_data = aisDataFor ais h ∧
      hr.final_score = lookupAssoc fsMap (normalize_time_range tr) := by
  unfold buildOne at hb
  exact insertAll_preserve hb

-- ## Characterization of the main loop

theorem buildAll_map_time_range {recs : List FactorRecord} {fsMap : List (String × ℚ)}
    {ais : List EventRecord} : ∀ {l : List String} {out : List HourlyRecord},
    buildAll recs fsMap ais l = .ok out →
    out.map (·.time_range) = l.filter (fun tr => (pyInt (beforeColon tr)).isSome) := by
  intro l
  induction l with
  | nil =>
    intro out h
    simp only [buildAll] at h
    cases h
    rfl
  | cons tr rest ih =>
    intro out h
    simp only [buildAll] at h
    cases hp : pyInt (beforeColon tr) with
    | none => rw [hp] at h; dsimp only at h; simpa [List.filter_cons, hp] using ih h
    | some hh =>
      rw [hp] at h
      dsimp only at h
      cases h1 : buildOne recs fsMap ais tr hh with
      | error e => rw [h1] at h; dsimp only at h; cases h
      | ok hr =>
        rw [h1] at h
        dsimp only at h
        cases h2 : buildAll recs fsMap ais rest with
        | error e => rw [h2] at h; dsimp only at h; cases h
        | ok hrs =>
          rw [h2] at h
          dsimp only at h
          cases h
          have := (buildOne_preserve h1).1
          simp [List.filter_cons, hp, this, ih h2]

theorem buildAll_mem {recs : List FactorRecord} {fsMap : List (String × ℚ)}
    {ais : List EventRecord} : ∀ {l : List String} {out : List HourlyRecord},
    buildAll recs fsMap ais l = .ok out → ∀ hr ∈ out,
    ∃ h, pyInt (beforeColon hr.time_range) = some h ∧
      buildOne recs fsMap ais hr.time_range h = .ok hr := by
  intro l
  induction l with
  | nil =>
    intro out h hr hmem
    simp only [buildAll] at h
    cases h
    cases hmem
  | cons tr rest ih =>
    intro out h hr hmem
    simp only [buildAll] at h
    cases hp : pyInt (beforeColon tr) with
    | none => rw [hp] at h; dsimp only at h; exact ih h hr hmem
    | some hh =>
      rw [hp] at h
      dsimp only at h
      cases h1 : buildOne recs fsMap ais tr hh with
      | error e => rw [h1] at h; dsimp only at h; cases h
      | ok hr1 =>
        rw [h1] at h
        dsimp only at h
        cases h2 : buildAll recs fsMap ais rest with
        | error e => rw [h2] at h; dsimp only at h; cases h
        | ok hrs =>
          rw [h2] at h
          dsimp only at h
          injection h with h3
          subst h3
          rcases List.mem_cons.mp hmem with hmem | hmem
          · subst hmem
            have htr := (buildOne_preserve h1).1
            exact ⟨hh, by rw [htr]; exact hp, by rw [htr]; exact h1⟩
          · exact ih h2 hr hmem

/-- C6: when the required factor table 4-21-day-result.csv is missing, the run
fails with an error that names the missing file and no output JSON is written
(src/main.py lines 12 and 167-169: the FileNotFoundError handler prints the
filename and the write on lines 150-153 is never reached). -/
theorem missing_factor_table_aborts (aisFile : Option (List AISRow)) :
    run none aisFile = .error (Err.fileNotFound "4-21-day-result.csv") ∧
    writtenOutput (run none aisFile) = none :=
  ⟨rfl, rfl⟩

-- ## Independence of the run from the AIS data

theorem insertFactorRecord_ais (hr : HourlyRecord) (r : FactorRecord) (x : List AISOut) :
    insertFactorRecord { hr with ais_data := x } r =
      Except.map (fun h2 => { h2 with ais_data := x }) (insertFactorRecord hr r) := by
  unfold insertFactorRecord
  split_ifs <;> rfl

theorem insertAll_ais : ∀ (rs : List FactorRecord) (hr : HourlyRecord) (x : List AISOut),
    insertAll { hr with ais_data := x } rs =
      Except.map (fun h2 => { h2 with ais_data := x }) (insertAll hr rs) := by
  intro rs
  induction rs with
  | nil => intro hr x; rfl
  | cons r rs ih =>
    intro hr x
    simp only [insertAll, insertFactorRecord_ais]
    cases insertFactorRecord hr r with
    | error e => rfl
    | ok hrm => exact ih hrm x

theorem buildOne_ais (recs : List FactorRecord) (fsMap : List (String × ℚ))
    (ais : List EventRecord) (tr : String) (h : Int) :
    buildOne recs fsMap ais tr h =
      Except.map (fun hr => { hr with ais_data := aisDataFor ais h })
        (buildOne recs fsMap [] tr h) := by
  have h1 := insertAll_ais (recs.filter (fun r => r.time_range == tr))
      { time_range := tr
        external_environment_factors := []
        human_factors := []
        internal_environment_factors := []
        ship_factors := []
        ais_data := []
        final_score := lookupAssoc fsMap (normalize_time_range tr) }
      (aisDataFor ais h)
  exact h1

theorem isOk_map {ε α β : Type} (f : α → β) (e : Except ε α) :
    (Except.map f e).isOk = e.isOk := by
  cases e <;> rfl

theorem buildAll_isOk_ais (recs : List FactorRecord) (fsMap : List (String × ℚ))
    (ais ais2 : List EventRecord) : ∀ (l : List String),
    (buildAll recs fsMap ais l).isOk = (buildAll recs fsMap ais2 l).isOk := by
  intro l
  induction l with
  | nil => rfl
  | cons tr rest ih =>
    simp only [buildAll]
    cases hp : pyInt (beforeColon tr) with
    | none => exact ih
    | some hh =>
      dsimp only
      rw [buildOne_ais recs fsMap ais tr hh, buildOne_ais recs fsMap ais2 tr hh]
      cases buildOne recs fsMap [] tr hh with
      | error e => rfl
      | ok hr =>
        simp only [Except.map]
        cases hr1 : buildAll recs fsMap ais rest with
        | error e =>
          cases hr2 : buildAll recs fsMap ais2 rest with
          | error e2 => rfl
          | ok hrs2 => rw [hr1, hr2] at ih; cases ih
        | ok hrs =>
          cases hr2 : buildAll recs fsMap ais2 rest with
          | error e2 => rw [hr1, hr2] at ih; cases ih
          | ok hrs2 => rfl

/-- C4: if the event log is absent or empty (the loader yields no event
record: AIS.csv missing, or holding no row with a parseable timestamp), the
run completes exactly as it would with any other event input, and every
HourlyRecord of a successful output has ais_data equal to the empty list,
never null or missing (src/main.py lines 88-90 and 120-129). -/
theorem empty_event_log_gives_empty_ais_data (df : FactorsDF)
    (aisFile aisFile2 : Option (List AISRow)) (hempty : loadAIS aisFile = []) :
    (run (some df) aisFile).isOk = (run (some df) aisFile2).isOk ∧
    ∀ out, run (some df) aisFile = .ok out → ∀ hr ∈ out, hr.ais_data = [] := by
  constructor
  · unfold run
    rw [hempty]
    exact buildAll_isOk_ais _ _ _ _ _
  · intro out hout hr hmem
    unfold run at hout
    rw [hempty] at hout
    obtain ⟨h, hp, hone⟩ := buildAll_mem hout hr hmem
    have := (buildOne_preserve hone).2.1
    rw [this]
    rfl

-- ## Final score lemmas

-- A forward-filled category value is always copied from some source row.
theorem ffillRows_category_origin : ∀ (rows : List WideRow) (last : Option String)
    (r2 : WideRow), r2 ∈ ffillRows last rows → ∀ s, r2.category = some s →
    last = some s ∨ ∃ r ∈ rows, r.category = some s := by
  intro rows
  induction rows with
  | nil => intro last r2 hmem; cases hmem
  | cons r rs ih =>
    intro last r2 hmem s hs
    simp only [ffillRows] at hmem
    cases hc : r.category with
    | some v =>
      rw [hc] at hmem
      rcases List.mem_cons.mp hmem with hmem | hmem
      · right
        refine ⟨r2, ?_, hs⟩
        rw [hmem]
        exact List.mem_cons_self r rs
      · rcases ih (some v) r2 hmem s hs with h | ⟨r3, hr3, hr3c⟩
        · right
          exact ⟨r, List.mem_cons_self r rs, by rw [hc, h]⟩
        · right
          exact ⟨r3, List.mem_cons_of_mem r hr3, hr3c⟩
    | none =>
      rw [hc] at hmem
      rcases List.mem_cons.mp hmem with hmem | hmem
      · subst hmem
        left
        exact hs
      · rcases ih last r2 hmem s hs with h | ⟨r3, hr3, hr3c⟩
        · left
          exact h
        · right
          exact ⟨r3, List.mem_cons_of_mem r hr3, hr3c⟩

theorem finalScoreMap_empty_of_no_row (df : FactorsDF)
    (hnone : ∀ row ∈ df.rows, ∀ s, row.category = some s →
      pyLowerS (pyStripS s) ≠ "final score") :
    finalScoreMap df = [] := by
  have hfind : (prepareRows df).find? isFinalScoreRow = none := by
    rw [List.find?_eq_none]
    intro r2 hmem hfs
    unfold isFinalScoreRow at hfs
    cases hc : r2.category with
    | none => rw [hc] at hfs; cases hfs
    | some s =>
      rw [hc] at hfs
      have hs : pyLowerS (pyStripS s) = "final score" := by
        exact eq_of_beq hfs
      have hmem2 : r2 ∈ ffillRows none df.rows := by
        unfold prepareRows at hmem
        exact (List.mem_filter.mp hmem).1
      rcases ffillRows_category_origin df.rows none r2 hmem2 s hc with h | ⟨r3, hr3, hr3c⟩
      · cases h
      · exact hnone r3 hr3 s hr3c hs
  unfold finalScoreMap
  rw [hfind]

/-- C5: when no row of the factor table has a category that equals, after
stripping and lowercasing, "final score" (src/main.py line 58), the
final-score map is empty (line 70, the missing row only produces a printed
warning) and every HourlyRecord of a successful run has final_score equal to
none, the JSON null (lines 111-121). -/
theorem no_final_score_row_gives_null (df : FactorsDF)
    (hnone : ∀ row ∈ df.rows, ∀ s, row.category = some s →
      pyLowerS (pyStripS s) ≠ "final score") :
    finalScoreMap df = [] ∧
    ∀ aisFile out, run (some df) aisFile = .ok out → ∀ hr ∈ out,
      hr.final_score = none := by
  have hempty := finalScoreMap_empty_of_no_row df hnone
  refine ⟨hempty, ?_⟩
  intro aisFile out hout hr hmem
  unfold run at hout
  dsimp only at hout
  rw [hempty] at hout
  obtain ⟨h, hp, hone⟩ := buildAll_mem hout hr hmem
  have := (buildOne_preserve hone).2.2
  rw [this]
  rfl

-- ## Order facts for the label sort

theorem lexLe_total : ∀ (a b : List Char), lexLe a b = true ∨ lexLe b a = true := by
  intro a
  induction a with
  | nil => intro b; left; rfl
  | cons x xs ih =>
    intro b
    cases b with
    | nil => right; rfl
    | cons y ys =>
      simp only [lexLe]
      rcases Nat.lt_trichotomy x.toNat y.toNat with h | h | h
      · left; simp [h]
      · rcases ih ys with h2 | h2
        · left; simp [h, h2]
        · right; simp [h.symm, h2, Nat.lt_irrefl]
      · right; simp [h]

theorem lexLe_trans : ∀ (a b c : List Char),
    lexLe a b = true → lexLe b c = true → lexLe a c = true := by
  intro a
  induction a with
  | nil => intro b c _ _; rfl
  | cons x xs ih =>
    intro b c h1 h2
    cases b with
    | nil => exact absurd h1 (by simp [lexLe])
    | cons y ys =>
      cases c with
      | nil => exact absurd h2 (by simp [lexLe])
      | cons z zs =>
        simp only [lexLe] at h1 h2 ⊢
        by_cases hxy : x.toNat < y.toNat
        · by_cases hyz : y.toNat < z.toNat
          · simp [show x.toNat < z.toNat from by omega]
          · by_cases hyze : y.toNat = z.toNat
            · simp [show x.toNat < z.toNat from by omega]
            · simp [hyz, hyze] at h2
        · by_cases hxye : x.toNat = y.toNat
          · by_cases hyz : y.toNat < z.toNat
            · simp [show x.toNat < z.toNat from by omega]
            · by_cases hyze : y.toNat = z.toNat
              · have hrest : lexLe xs ys = true := by simpa [hxy, hxye] using h1
                have hrest2 : lexLe ys zs = true := by simpa [hyz, hyze] using h2
                simp [show ¬ x.toNat < z.toNat from by omega,
                  show x.toNat = z.toNat from by omega, ih ys zs hrest hrest2]
              · simp [hyz, hyze] at h2
          · simp [hxy, hxye] at h1

instance : IsTotal String strLe := ⟨fun s t => lexLe_total s.data t.data⟩

instance : IsTrans String strLe := ⟨fun a b c => lexLe_trans a.data b.data c.data⟩

-- ## Distinct labels

theorem uniqueFirstAux_mem : ∀ (l seen : List String) (a : String),
    a ∈ uniqueFirstAux seen l ↔ (a ∈ l ∧ seen.contains a = false) := by
  intro l
  induction l with
  | nil => intro seen a; simp [uniqueFirstAux]
  | cons b l ih =>
    intro seen a
    simp only [uniqueFirstAux]
    by_cases hb : seen.contains b
    · rw [if_pos hb, ih]
      constructor
      · rintro ⟨h1, h2⟩
        exact ⟨List.mem_cons_of_mem b h1, h2⟩
      · rintro ⟨h1, h2⟩
        rcases List.mem_cons.mp h1 with h1 | h1
        · subst h1
          rw [hb] at h2
          cases h2
        · exact ⟨h1, h2⟩
    · rw [if_neg hb]
      rw [Bool.not_eq_true] at hb
      constructor
      · intro h1
        rcases List.mem_cons.mp h1 with h1 | h1
        · subst h1
          exact ⟨List.mem_cons_self a l, hb⟩
        · obtain ⟨h2, h3⟩ := (ih (b :: seen) a).mp h1
          simp only [List.contains_cons, Bool.or_eq_false_iff] at h3
          exact ⟨List.mem_cons_of_mem b h2, h3.2⟩
      · rintro ⟨h1, h2⟩
        rcases List.mem_cons.mp h1 with h1 | h1
        · subst h1
          exact List.mem_cons_self a _
        · by_cases hab : a = b
          · subst hab
            exact List.mem_cons_self a _
          · refine List.mem_cons_of_mem b ((ih (b :: seen) a).mpr ⟨h1, ?_⟩)
            simp only [List.contains_cons, Bool.or_eq_false_iff]
            refine ⟨?_, h2⟩
            simpa using hab
  
theorem uniqueFirstAux_nodup : ∀ (l seen : List String), (uniqueFirstAux seen l).Nodup := by
  intro l
  induction l with
  | nil => intro seen; exact List.nodup_nil
  | cons b l ih =>
    intro seen
    simp only [uniqueFirstAux]
    by_cases hb : seen.contains b
    · rw [if_pos hb]
      exact ih seen
    · rw [if_neg hb]
      refine List.nodup_cons.mpr ⟨?_, ih (b :: seen)⟩
      intro hmem
      have := ((uniqueFirstAux_mem l (b :: seen) b).mp hmem).2
      simp [List.contains_cons] at this

theorem uniqueFirst_mem (l : List String) (a : String) : a ∈ uniqueFirst l ↔ a ∈ l := by
  unfold uniqueFirst
  rw [uniqueFirstAux_mem]
  simp

theorem uniqueFirst_nodup (l : List String) : (uniqueFirst l).Nodup :=
  uniqueFirstAux_nodup l []

/-- C1: for every factor table input on which the run completes, the number of
HourlyRecord objects in the output equals the number of distinct time_range
labels of the reshaped factor data whose leading text before the first colon
parses as a Python int (src/main.py lines 94-109); a bucket is emitted even
when no factor and no event data land in it (line 145-146 appends the record
unconditionally). -/
theorem output_count_eq_parsable_distinct_labels (df : FactorsDF)
    (aisFile : Option (List AISRow)) (out : List HourlyRecord)
    (hout : run (some df) aisFile = .ok out) :
    out.length = ((uniqueFirst (labels df)).filter
      (fun tr => (pyInt (beforeColon tr)).isSome)).length := by
  unfold run at hout
  dsimp only at hout
  have hmap := buildAll_map_time_range hout
  have h1 : out.length = ((sortedLabels df).filter
      (fun tr => (pyInt (beforeColon tr)).isSome)).length := by
    rw [← hmap, List.length_map]
  rw [h1]
  exact ((List.perm_insertionSort strLe (uniqueFirst (labels df))).filter _).length_eq

def c1df : FactorsDF :=
  { cols := ["0:00 - 1:00", "ab:00 - 1:00"]
  , rows := [⟨some "Ship Factors", some "Speed", [some 1, some 3]⟩] }

def c1out : List HourlyRecord :=
  [{ time_range := "0:00 - 1:00"
   , external_environment_factors := []
   , human_factors := []
   , internal_environment_factors := []
   , ship_factors := [("Speed", 1)]
   , ais_data := []
   , final_score := none }]

theorem output_count_eq_parsable_distinct_labels_witness :
    run (some c1df) none = .ok c1out ∧
    c1out.length = ((uniqueFirst (labels c1df)).filter
      (fun tr => (pyInt (beforeColon tr)).isSome)).length :=
  ⟨rfl, output_count_eq_parsable_distinct_labels c1df none c1out rfl⟩

/-- C7: the output records of a successful run are ordered by the code-point
lexicographic order of the raw time_range label strings (src/main.py line 94
sorts the raw labels, not the parsed hours), with exactly one record per
distinct label whose leading hour parses, and no label ever appears twice. -/
theorem output_sorted_by_raw_label_and_unique (df : FactorsDF)
    (aisFile : Option (List AISRow)) (out : List HourlyRecord)
    (hout : run (some df) aisFile = .ok out) :
    List.Sorted strLe (out.map (·.time_range)) ∧
    (out.map (·.time_range)).Nodup ∧
    ∀ tr, tr ∈ out.map (·.time_range) ↔
      (tr ∈ labels df ∧ (pyInt (beforeColon tr)).isSome = true) := by
  unfold run at hout
  dsimp only at hout
  have hmap := buildAll_map_time_range hout
  rw [hmap]
  refine ⟨?_, ?_, ?_⟩
  · exact List.Pairwise.sublist (List.filter_sublist _)
      (List.sorted_insertionSort strLe (uniqueFirst (labels df)))
  · refine List.Nodup.sublist (List.filter_sublist _) ?_
    exact ((List.perm_insertionSort strLe _).nodup_iff).mpr (uniqueFirst_nodup _)
  · intro tr
    rw [List.mem_filter]
    unfold sortedLabels
    rw [(List.perm_insertionSort strLe _).mem_iff, uniqueFirst_mem]

def c7df : FactorsDF :=
  { cols := ["1:00 - 2:00", "0:00 - 1:00"]
  , rows := [⟨some "Human Factors", some "Fatigue", [some 2, some 1]⟩] }

def c7out : List HourlyRecord :=
  [{ time_range := "0:00 - 1:00"
   , external_environment_factors := []
   , human_factors := [("Fatigue", 1)]
   , internal_environment_factors := []
   , ship_factors := []
   , ais_data := []
   , final_score := none }
  ,{ time_range := "1:00 - 2:00"
   , external_environment_factors := []
   , human_factors := [("Fatigue", 2)]
   , internal_environment_factors := []
   , ship_factors := []
   , ais_data := []
   , final_score := none }]

theorem output_sorted_by_raw_label_and_unique_witness :
    run (some c7df) none = .ok c7out ∧
    (List.Sorted strLe (c7out.map (·.time_range)) ∧
     (c7out.map (·.time_range)).Nodup ∧
     ∀ tr, tr ∈ c7out.map (·.time_range) ↔
       (tr ∈ labels c7df ∧ (pyInt (beforeColon tr)).isSome = true)) :=
  ⟨rfl, output_sorted_by_raw_label_and_unique c7df none c7out rfl⟩

-- ## Dict lemmas

theorem lookupAssoc_insertAssoc_self {β : Type} (d : List (String × β)) (k : String) (v : β) :
    lookupAssoc (insertAssoc d k v) k = some v := by
  induction d with
  | nil => simp [insertAssoc, lookupAssoc]
  | cons p rest ih =>
    obtain ⟨k2, v2⟩ := p
    simp only [insertAssoc]
    by_cases h : k2 = k
    · rw [if_pos h]
      simp [lookupAssoc]
    · rw [if_neg h]
      simp only [lookupAssoc, if_neg h]
      exact ih

theorem lookupAssoc_insertAssoc_ne {β : Type} (d : List (String × β)) (k : String) (v : β)
    (f : String) (hne : k ≠ f) : lookupAssoc (insertAssoc d k v) f = lookupAssoc d f := by
  induction d with
  | nil => simp [insertAssoc, lookupAssoc, hne]
  | cons p rest ih =>
    obtain ⟨k2, v2⟩ := p
    simp only [insertAssoc]
    by_cases h : k2 = k
    · rw [if_pos h]
      simp only [lookupAssoc, if_neg hne, if_neg (h ▸ hne)]
    · rw [if_neg h]
      simp only [lookupAssoc]
      by_cases h2 : k2 = f
      · rw [if_pos h2, if_pos h2]
      · rw [if_neg h2, if_neg h2]
        exact ih

theorem lookupAssoc_mem {β : Type} : ∀ {d : List (String × β)} {k : String} {v : β},
    lookupAssoc d k = some v → (k, v) ∈ d := by
  intro d
  induction d with
  | nil => intro k v h; cases h
  | cons p rest ih =>
    intro k v h
    obtain ⟨k2, v2⟩ := p
    simp only [lookupAssoc] at h
    by_cases h2 : k2 = k
    · rw [if_pos h2] at h
      cases h
      subst h2
      exact List.mem_cons_self _ _
    · rw [if_neg h2] at h
      exact List.mem_cons_of_mem _ (ih h)

theorem mem_insertAssoc {β : Type} : ∀ {d : List (String × β)} {k : String} {v : β}
    {p : String × β}, p ∈ insertAssoc d k v → p ∈ d ∨ p = (k, v) := by
  intro d
  induction d with
  | nil => intro k v p h; simp [insertAssoc] at h; right; exact h
  | cons q rest ih =>
    intro k v p h
    obtain ⟨k2, v2⟩ := q
    simp only [insertAssoc] at h
    by_cases h2 : k2 = k
    · rw [if_pos h2] at h
      rcases List.mem_cons.mp h with h | h
      · right; exact h
      · left; exact List.mem_cons_of_mem _ h
    · rw [if_neg h2] at h
      rcases List.mem_cons.mp h with h | h
      · left; rw [h]; exact List.mem_cons_self _ _
      · rcases ih h with h | h
        · left; exact List.mem_cons_of_mem _ h
        · right; exact h

theorem mem_keys_insertAssoc {β : Type} : ∀ {d : List (String × β)} {k v} {x : String},
    x ∈ (insertAssoc d k v).map Prod.fst → x ∈ d.map Prod.fst ∨ x = k := by
  intro d k v x h
  rcases List.mem_map.mp h with ⟨p, hp, hx⟩
  rcases mem_insertAssoc hp with h2 | h2
  · left; exact hx ▸ List.mem_map_of_mem Prod.fst h2
  · right; rw [← hx, h2]

theorem nodup_keys_insertAssoc {β : Type} : ∀ {d : List (String × β)}
    (_ : (d.map Prod.fst).Nodup) (k : String) (v : β),
    ((insertAssoc d k v).map Prod.fst).Nodup := by
  intro d
  induction d with
  | nil => intro h k v; simp [insertAssoc]
  | cons q rest ih =>
    intro h k v
    obtain ⟨k2, v2⟩ := q
    simp only [List.map_cons, List.nodup_cons] at h
    simp only [insertAssoc]
    by_cases h2 : k2 = k
    · rw [if_pos h2]
      subst h2
      simp only [List.map_cons, List.nodup_cons]
      exact h
    · rw [if_neg h2]
      simp only [List.map_cons, List.nodup_cons]
      refine ⟨?_, ih h.2 k v⟩
      intro hmem
      rcases mem_keys_insertAssoc hmem with h3 | h3
      · exact h.1 h3
      · exact h2 h3

-- ## Bucket contents of a built record

theorem insertFactorRecord_bucket {hr : HourlyRecord} {r : FactorRecord} {hr2 : HourlyRecord}
    (h : insertFactorRecord hr r = .ok hr2) {b : String} (hb : b ∈ knownBuckets) :
    bucketOf hr2 b = if format_category_name r.category = b
      then insertAssoc (bucketOf hr b) (pyStripS r.factor) r.value
      else bucketOf hr b := by
  simp only [knownBuckets, List.mem_cons, List.not_mem_nil, or_false] at hb
  unfold insertFactorRecord at h
  split_ifs at h with h1 h2 h3 h4 h5
  · cases h; rcases hb with rfl | rfl | rfl | rfl <;> simp [bucketOf, h1]
  · cases h; rcases hb with rfl | rfl | rfl | rfl <;> simp [bucketOf, h1, h2]
  · cases h; rcases hb with rfl | rfl | rfl | rfl <;> simp [bucketOf, h1, h2, h3]
  · cases h; rcases hb with rfl | rfl | rfl | rfl <;> simp [bucketOf, h1, h2, h3, h4]
  · cases h; rcases hb with rfl | rfl | rfl | rfl <;> simp [bucketOf, h1, h2, h3, h4]

theorem insertAll_bucket : ∀ {rs : List FactorRecord} {base hr2 : HourlyRecord},
    insertAll base rs = .ok hr2 → ∀ {b : String}, b ∈ knownBuckets →
    bucketOf hr2 b = rs.foldl (fun d r => if format_category_name r.category = b
      then insertAssoc d (pyStripS r.factor) r.value else d) (bucketOf base b) := by
  intro rs
  induction rs with
  | nil =>
    intro base hr2 h b hb
    simp only [insertAll] at h
    cases h
    rfl
  | cons r rs ih =>
    intro base hr2 h b hb
    simp only [insertAll] at h
    cases h2 : insertFactorRecord base r with
    | error e => rw [h2] at h; cases h
    | ok hrm =>
      rw [h2] at h
      rw [List.foldl_cons, ← insertFactorRecord_bucket h2 hb]
      exact ih h hb

theorem getLast?_cons_form {α : Type} : ∀ (l : List α) (a : α),
    (a :: l).getLast? = match l.getLast? with | some x => some x | none => some a := by
  intro l
  induction l with
  | nil => intro a; rfl
  | cons b l ih =>
    intro a
    rw [List.getLast?_cons_cons]
    cases hl : (b :: l).getLast? with
    | some x => rfl
    | none =>
      rw [ih b] at hl
      cases hl2 : l.getLast? with
      | some y => rw [hl2] at hl; cases hl
      | none => rw [hl2] at hl; cases hl

theorem lookup_foldl_insert (b f : String) : ∀ (rs : List FactorRecord)
    (d : List (String × ℚ)),
    lookupAssoc (rs.foldl (fun d r => if format_category_name r.category = b
      then insertAssoc d (pyStripS r.factor) r.value else d) d) f =
    match (rs.filter (fun r => format_category_name r.category == b
        && pyStripS r.factor == f)).getLast? with
    | some r => some r.value
    | none => lookupAssoc d f := by
  intro rs
  induction rs with
  | nil => intro d; rfl
  | cons r rs ih =>
    intro d
    rw [List.foldl_cons, List.filter_cons]
    by_cases h1 : format_category_name r.category = b
    · by_cases h2 : pyStripS r.factor = f
      · have hc : (format_category_name r.category == b && pyStripS r.factor == f) = true := by
          simp [h1, h2]
        rw [if_pos h1, hc, if_pos rfl, ih, getLast?_cons_form]
        cases hfl : (rs.filter (fun r => format_category_name r.category == b
            && pyStripS r.factor == f)).getLast? with
        | some r2 => rfl
        | none =>
          rw [h2]
          rw [lookupAssoc_insertAssoc_self]
      · have hc : (format_category_name r.category == b && pyStripS r.factor == f) = false := by
          simp [h1, h2]
        rw [if_pos h1, hc, if_neg (by simp), ih]
        cases hfl : (rs.filter (fun r => format_category_name r.category == b
            && pyStripS r.factor == f)).getLast? with
        | some r2 => rfl
        | none => rw [lookupAssoc_insertAssoc_ne _ _ _ _ h2]
    · have hc : (format_category_name r.category == b && pyStripS r.factor == f) = false := by
        simp [h1]
      rw [if_neg h1, hc, if_neg (by simp), ih]

theorem nodup_keys_foldl_insert (b : String) : ∀ (rs : List FactorRecord)
    (d : List (String × ℚ)), (d.map Prod.fst).Nodup →
    ((rs.foldl (fun d r => if format_category_name r.category = b
      then insertAssoc d (pyStripS r.factor) r.value else d) d).map Prod.fst).Nodup := by
  intro rs
  induction rs with
  | nil => intro d h; exact h
  | cons r rs ih =>
    intro d h
    rw [List.foldl_cons]
    by_cases h1 : format_category_name r.category = b
    · rw [if_pos h1]
      exact ih _ (nodup_keys_insertAssoc h _ _)
    · rw [if_neg h1]
      exact ih _ h

theorem filter_and_filter {α : Type} (p q : α → Bool) : ∀ (l : List α),
    (l.filter p).filter q = l.filter (fun a => p a && q a) := by
  intro l
  induction l with
  | nil => rfl
  | cons a l ih =>
    rw [List.filter_cons, List.filter_cons]
    cases hp : p a with
    | true =>
      rw [if_pos rfl, List.filter_cons]
      cases hq : q a with
      | true => rw [if_pos rfl, if_pos (by simp [hp, hq]), ih]
      | false => rw [if_neg (by simp), if_neg (by simp [hp, hq]), ih]
    | false =>
      rw [if_neg (by simp), if_neg (by simp [hp]), ih]

theorem output_bucket_spec {df : FactorsDF} {aisFile : Option (List AISRow)}
    {out : List HourlyRecord} (hout : run (some df) aisFile = .ok out)
    {hr : HourlyRecord} (hmem : hr ∈ out) {b : String} (hb : b ∈ knownBuckets) :
    bucketOf hr b = ((factorRecords df).filter
      (fun r => r.time_range == hr.time_range)).foldl
      (fun d r => if format_category_name r.category = b
        then insertAssoc d (pyStripS r.factor) r.value else d) [] := by
  unfold run at hout
  dsimp only at hout
  obtain ⟨h, hp, hone⟩ := buildAll_mem hout hr hmem
  unfold buildOne at hone
  have hbb := insertAll_bucket hone hb
  rcases (by simpa [knownBuckets] using hb :
    b = "external_environment_factors" ∨ b = "human_factors" ∨
    b = "internal_environment_factors" ∨ b = "ship_factors") with rfl | rfl | rfl | rfl <;>
  · rw [hbb]
    rfl

/-- C10: when several FactorRecords share the time_range, the canonical
bucket and the trimmed factor name, the bucket of the output record maps that
factor name to the value of the record processed last in melt order, and the
bucket holds no duplicate factor keys, so every earlier value is overwritten
and absent (src/main.py lines 135-141, dict item assignment). -/
theorem bucket_last_write_wins (df : FactorsDF) (aisFile : Option (List AISRow))
    (out : List HourlyRecord) (hout : run (some df) aisFile = .ok out)
    (hr : HourlyRecord) (hmem : hr ∈ out) (b : String) (hb : b ∈ knownBuckets)
    (f : String) :
    lookupAssoc (bucketOf hr b) f =
      (((factorRecords df).filter (fun r => r.time_range == hr.time_range
        && (format_category_name r.category == b
            && pyStripS r.factor == f))).getLast?).map (·.value) ∧
    ((bucketOf hr b).map Prod.fst).Nodup := by
  have hspec := output_bucket_spec hout hmem hb
  constructor
  · rw [hspec, lookup_foldl_insert, filter_and_filter]
    cases hfl : ((factorRecords df).filter
        (fun r => r.time_range == hr.time_range
          && (format_category_name r.category == b
              && pyStripS r.factor == f))).getLast? with
    | some r2 => rfl
    | none => rfl
  · rw [hspec]
    exact nodup_keys_foldl_insert b _ [] (by simp)

def c10df : FactorsDF :=
  { cols := ["0:00 - 1:00"]
  , rows := [ ⟨some "Ship Factors", some "Speed", [some 1]⟩
            , ⟨some "Ship Factors", some "Speed", [some 2]⟩ ] }

def c10rec : HourlyRecord :=
  { time_range := "0:00 - 1:00"
  , external_environment_factors := []
  , human_factors := []
  , internal_environment_factors := []
  , ship_factors := [("Speed", 2)]
  , ais_data := []
  , final_score := none }

theorem bucket_last_write_wins_witness :
    run (some c10df) none = .ok [c10rec] ∧ c10rec ∈ [c10rec] ∧
    "ship_factors" ∈ knownBuckets ∧
    (lookupAssoc (bucketOf c10rec "ship_factors") "Speed" =
      (((factorRecords c10df).filter (fun r => r.time_range == c10rec.time_range
        && (format_category_name r.category == "ship_factors"
            && pyStripS r.factor == "Speed"))).getLast?).map (·.value) ∧
     ((bucketOf c10rec "ship_factors").map Prod.fst).Nodup) :=
  ⟨rfl, List.mem_cons_self _ _, by decide,
    bucket_last_write_wins c10df none [c10rec] rfl c10rec (List.mem_cons_self _ _)
      "ship_factors" (by decide) "Speed"⟩

theorem getLast?_mem {α : Type} : ∀ {l : List α} {a : α}, l.getLast? = some a → a ∈ l := by
  intro l
  induction l with
  | nil => intro a h; cases h
  | cons b l ih =>
    intro a h
    rw [getLast?_cons_form] at h
    cases hl : l.getLast? with
    | some x =>
      rw [hl] at h
      cases h
      exact List.mem_cons_of_mem _ (ih hl)
    | none =>
      rw [hl] at h
      cases h
      exact List.mem_cons_self _ _

theorem getLast?_isSome_of_mem {α : Type} : ∀ {l : List α} {a : α}, a ∈ l →
    ∃ x, l.getLast? = some x := by
  intro l
  cases l with
  | nil => intro a h; cases h
  | cons b l2 =>
    intro a h
    rw [getLast?_cons_form]
    cases hl : l2.getLast? with
    | some x => exact ⟨x, rfl⟩
    | none => exact ⟨b, rfl⟩

theorem hasFactor_of_mem_bucket {out : List HourlyRecord} {hr : HourlyRecord}
    (hmem : hr ∈ out) {b f : String} {v : ℚ} (hb : b ∈ knownBuckets)
    (hpv : (f, v) ∈ bucketOf hr b) {tr : String} (htr : hr.time_range = tr) :
    Json.hasFactor (serializeRecords out) tr b f v = true := by
  unfold serializeRecords Json.hasFactor
  rw [List.any_eq_true]
  refine ⟨serializeHourly hr, List.mem_map_of_mem _ hmem, ?_⟩
  rcases (by simpa [knownBuckets] using hb :
    b = "external_environment_factors" ∨ b = "human_factors" ∨
    b = "internal_environment_factors" ∨ b = "ship_factors") with rfl | rfl | rfl | rfl <;>
  · simp [bucketOf] at hpv
    simp [serializeHourly, objField, bucketJson, htr, List.any_eq_true]
    exact ⟨f, Json.num v, ⟨f, v, hpv, rfl, rfl⟩, rfl, by simp⟩

/-- C8: round-trip of inserted pairs.  For every surviving FactorRecord whose
category canonicalizes to a known bucket, whose time_range yields a valid
bucket (parsable leading hour) and whose value is not overwritten by another
record of the same time_range, bucket and trimmed factor name, the pair put
into the bucket on line 141 of src/main.py — the trimmed factor name paired
with the unchanged numeric value — is present in that bucket of the matching
output record and appears unchanged in the serialized output JSON
(lines 150-153). -/
theorem inserted_pair_roundtrips_to_json (df : FactorsDF)
    (aisFile : Option (List AISRow)) (out : List HourlyRecord)
    (hout : run (some df) aisFile = .ok out) (r : FactorRecord)
    (hrec : r ∈ factorRecords df) (b : String) (hb : b ∈ knownBuckets)
    (hcat : format_category_name r.category = b)
    (hparse : (pyInt (beforeColon r.time_range)).isSome = true)
    (huniq : ∀ r2 ∈ factorRecords df, r2.time_range = r.time_range →
      format_category_name r2.category = b →
      pyStripS r2.factor = pyStripS r.factor → r2.value = r.value) :
    ∃ hr ∈ out, hr.time_range = r.time_range ∧
      (pyStripS r.factor, r.value) ∈ bucketOf hr b ∧
      Json.hasFactor (serializeRecords out) r.time_range b (pyStripS r.factor)
        r.value = true := by
  have hout2 := hout
  unfold run at hout2
  dsimp only at hout2
  have hmap := buildAll_map_time_range hout2
  have htr_mem : r.time_range ∈ out.map (·.time_range) := by
    rw [hmap, List.mem_filter]
    refine ⟨?_, hparse⟩
    unfold sortedLabels
    rw [(List.perm_insertionSort strLe _).mem_iff, uniqueFirst_mem]
    exact List.mem_map_of_mem _ hrec
  obtain ⟨hr, hmem, htr⟩ := List.mem_map.mp htr_mem
  have hlook := (bucket_last_write_wins df aisFile out hout hr hmem b hb
    (pyStripS r.factor)).1
  have hrfilter : r ∈ (factorRecords df).filter
      (fun r2 => r2.time_range == hr.time_range
        && (format_category_name r2.category == b
            && pyStripS r2.factor == pyStripS r.factor)) := by
    rw [List.mem_filter]
    refine ⟨hrec, ?_⟩
    simp [htr, hcat]
  obtain ⟨rl, hrl⟩ := getLast?_isSome_of_mem hrfilter
  have hrl_mem := getLast?_mem hrl
  rw [List.mem_filter] at hrl_mem
  obtain ⟨hrl_rec, hrl_cond⟩ := hrl_mem
  simp only [Bool.and_eq_true, beq_iff_eq] at hrl_cond
  have hrl_val : rl.value = r.value :=
    huniq rl hrl_rec (by rw [hrl_cond.1, htr]) hrl_cond.2.1 hrl_cond.2.2
  rw [hrl] at hlook
  simp only [Option.map_some'] at hlook
  rw [hrl_val] at hlook
  have hpair : (pyStripS r.factor, r.value) ∈ bucketOf hr b := lookupAssoc_mem hlook
  exact ⟨hr, hmem, htr, hpair,
    hasFactor_of_mem_bucket hmem hb hpair htr⟩

def c8df : FactorsDF :=
  { cols := ["0:00 - 1:00"]
  , rows := [⟨some "Human Factors", some "Fatigue", [some 7]⟩] }

def c8rec : FactorRecord := ⟨some "Human Factors", "Fatigue", "0:00 - 1:00", 7⟩

def c8out : List HourlyRecord :=
  [{ time_range := "0:00 - 1:00"
   , external_environment_factors := []
   , human_factors := [("Fatigue", 7)]
   , internal_environment_factors := []
   , ship_factors := []
   , ais_data := []
   , final_score := none }]

theorem inserted_pair_roundtrips_to_json_witness :
    run (some c8df) none = .ok c8out ∧ c8rec ∈ factorRecords c8df ∧
    "human_factors" ∈ knownBuckets ∧
    format_category_name c8rec.category = "human_factors" ∧
    (pyInt (beforeColon c8rec.time_range)).isSome = true ∧
    (∀ r2 ∈ factorRecords c8df, r2.time_range = c8rec.time_range →
      format_category_name r2.category = "human_factors" →
      pyStripS r2.factor = pyStripS c8rec.factor → r2.value = c8rec.value) ∧
    (∃ hr ∈ c8out, hr.time_range = c8rec.time_range ∧
      (pyStripS c8rec.factor, c8rec.value) ∈ bucketOf hr "human_factors" ∧
      Json.hasFactor (serializeRecords c8out) c8rec.time_range "human_factors"
        (pyStripS c8rec.factor) c8rec.value = true) :=
  ⟨rfl, by decide, by decide, by decide, by decide, by decide,
    inserted_pair_roundtrips_to_json c8df none c8out rfl c8rec (by decide)
      "human_factors" (by decide) (by decide) (by decide) (by decide)⟩

-- ## Unknown categories

def c2df : FactorsDF :=
  { cols := ["0:00 - 1:00"]
  , rows := [⟨some "Ais Data", some "X", [some 1]⟩] }

/-- Counterexample to C2 as stated: the category "Ais Data" canonicalizes to
"ais_data", which is not one of the four bucket keys, yet the record is not
dropped with a warning — line 140 of src/main.py tests membership among all
keys of hourly_record, "ais_data" is such a key, and the item assignment on
line 141 into the list raises TypeError, aborting the whole run through the
generic handler with no output written. -/
theorem unknown_category_can_abort_run :
    format_category_name (some "Ais Data") ∉ knownBuckets ∧
    run (some c2df) none = .error Err.typeError ∧
    writtenOutput (run (some c2df) none) = none :=
  ⟨by decide, rfl, rfl⟩

theorem insertFactorRecord_ok_of_not_special {hr : HourlyRecord} {r : FactorRecord}
    (hsp : format_category_name r.category ∉ specialKeys) :
    ∃ hr2, insertFactorRecord hr r = .ok hr2 := by
  unfold insertFactorRecord
  split_ifs with h1 h2 h3 h4 h5
  · exact ⟨_, rfl⟩
  · exact ⟨_, rfl⟩
  · exact ⟨_, rfl⟩
  · exact ⟨_, rfl⟩
  · exfalso
    apply hsp
    simp only [Bool.or_eq_true, decide_eq_true_eq] at h5
    simp only [specialKeys, List.mem_cons, List.not_mem_nil, or_false]
    tauto
  · exact ⟨_, rfl⟩

theorem insertAll_ok_of_no_special : ∀ (rs : List FactorRecord) (base : HourlyRecord),
    (∀ r ∈ rs, format_category_name r.category ∉ specialKeys) →
    ∃ hr2, insertAll base rs = .ok hr2 := by
  intro rs
  induction rs with
  | nil => intro base _; exact ⟨base, rfl⟩
  | cons r rs ih =>
    intro base hsp
    obtain ⟨hrm, hm⟩ := @insertFactorRecord_ok_of_not_special base r
      (hsp r (List.mem_cons_self _ _))
    obtain ⟨hr2, h2⟩ := ih hrm (fun r2 hmem => hsp r2 (List.mem_cons_of_mem _ hmem))
    refine ⟨hr2, ?_⟩
    simp only [insertAll]
    rw [hm]
    exact h2

theorem buildAll_ok_of_no_special {recs : List FactorRecord} {fsMap : List (String × ℚ)}
    {ais : List EventRecord}
    (hsp : ∀ r ∈ recs, format_category_name r.category ∉ specialKeys) :
    ∀ l, ∃ out, buildAll recs fsMap ais l = .ok out := by
  intro l
  induction l with
  | nil => exact ⟨[], rfl⟩
  | cons tr rest ih =>
    obtain ⟨outr, hrest⟩ := ih
    cases hp : pyInt (beforeColon tr) with
    | none =>
      refine ⟨outr, ?_⟩
      simp only [buildAll]
      rw [hp]
      exact hrest
    | some hh =>
      obtain ⟨hrc, hone⟩ := insertAll_ok_of_no_special
        (recs.filter (fun r => r.time_range == tr)) _
        (fun r hmem => hsp r (List.mem_filter.mp hmem).1)
      refine ⟨hrc :: outr, ?_⟩
      simp only [buildAll]
      rw [hp]
      dsimp only
      rw [show buildOne recs fsMap ais tr hh = .ok hrc from hone, hrest]

theorem mem_foldl_insert (b : String) : ∀ (rs : List FactorRecord)
    (d : List (String × ℚ)) (p : String × ℚ),
    p ∈ rs.foldl (fun d r => if format_category_name r.category = b
      then insertAssoc d (pyStripS r.factor) r.value else d) d →
    p ∈ d ∨ ∃ r ∈ rs, format_category_name r.category = b ∧
      p = (pyStripS r.factor, r.value) := by
  intro rs
  induction rs with
  | nil => intro d p h; left; exact h
  | cons r rs ih =>
    intro d p h
    rw [List.foldl_cons] at h
    by_cases h1 : format_category_name r.category = b
    · rw [if_pos h1] at h
      rcases ih _ p h with h2 | ⟨r2, hr2, hc2, hp2⟩
      · rcases mem_insertAssoc h2 with h3 | h3
        · left; exact h3
        · right; exact ⟨r, List.mem_cons_self _ _, h1, h3⟩
      · right; exact ⟨r2, List.mem_cons_of_mem _ hr2, hc2, hp2⟩
    · rw [if_neg h1] at h
      rcases ih _ p h with h2 | ⟨r2, hr2, hc2, hp2⟩
      · left; exact h2
      · right; exact ⟨r2, List.mem_cons_of_mem _ hr2, hc2, hp2⟩

/-- C2 amended: a FactorRecord whose canonical category is neither one of the
four bucket keys nor one of the other three keys of hourly_record
(time_range, ais_data, final_score) is dropped with only a printed warning
and is never inserted into any output bucket, and the run completes for all
other records; but a category canonicalizing to time_range, ais_data or
final_score raises TypeError on line 141 of src/main.py and aborts the run,
so the claim holds only away from those three keys. -/
theorem unknown_category_dropped_when_not_special (df : FactorsDF)
    (aisFile : Option (List AISRow))
    (hsp : ∀ r ∈ factorRecords df, format_category_name r.category ∉ specialKeys) :
    (∃ out, run (some df) aisFile = .ok out) ∧
    (∀ out, run (some df) aisFile = .ok out → ∀ hr ∈ out, ∀ b ∈ knownBuckets,
      ∀ p ∈ bucketOf hr b, ∃ r ∈ factorRecords df,
        r.time_range = hr.time_range ∧ format_category_name r.category = b ∧
        p = (pyStripS r.factor, r.value)) := by
  constructor
  · obtain ⟨out, hall⟩ := buildAll_ok_of_no_special hsp (sortedLabels df)
    exact ⟨out, hall⟩
  · intro out hout hr hmem b hb p hp
    rw [output_bucket_spec hout hmem hb] at hp
    rcases mem_foldl_insert b _ [] p hp with h | ⟨r, hrmem, hc, hpr⟩
    · cases h
    · rw [List.mem_filter] at hrmem
      exact ⟨r, hrmem.1, by simpa using hrmem.2, hc, hpr⟩

def c2adf : FactorsDF :=
  { cols := ["0:00 - 1:00"]
  , rows := [ ⟨some "Weird Category", some "X", [some 1]⟩
            , ⟨some "Ship Factors", some "Speed", [some 2]⟩ ] }

theorem unknown_category_dropped_when_not_special_witness :
    (∀ r ∈ factorRecords c2adf, format_category_name r.category ∉ specialKeys) ∧
    ((∃ out, run (some c2adf) none = .ok out) ∧
     (∀ out, run (some c2adf) none = .ok out → ∀ hr ∈ out, ∀ b ∈ knownBuckets,
       ∀ p ∈ bucketOf hr b, ∃ r ∈ factorRecords c2adf,
         r.time_range = hr.time_range ∧ format_category_name r.category = b ∧
         p = (pyStripS r.factor, r.value))) :=
  ⟨by decide, unknown_category_dropped_when_not_special c2adf none (by decide)⟩

-- ## Normalization lemmas

theorem dropWhile_head_not {α : Type} (p : α → Bool) : ∀ (l : List α),
    l.dropWhile p = [] ∨ ∃ a t, l.dropWhile p = a :: t ∧ p a = false := by
  intro l
  induction l with
  | nil => left; rfl
  | cons a t ih =>
    cases hp : p a with
    | true =>
      rw [List.dropWhile_cons, if_pos hp]
      exact ih
    | false =>
      right
      exact ⟨a, t, by rw [List.dropWhile_cons, hp]; simp, hp⟩

theorem dropWhile_eq_self_of_head {α : Type} {p : α → Bool} {l : List α}
    (h : l = [] ∨ ∃ a t, l = a :: t ∧ p a = false) : l.dropWhile p = l := by
  rcases h with rfl | ⟨a, t, rfl, hp⟩
  · rfl
  · rw [List.dropWhile_cons, hp]
    simp

theorem dropWhile_idem {α : Type} (p : α → Bool) (l : List α) :
    (l.dropWhile p).dropWhile p = l.dropWhile p :=
  dropWhile_eq_self_of_head (dropWhile_head_not p l)

theorem pyStripChars_sublist (l : List Char) : (pyStripChars l).Sublist l := by
  unfold pyStripChars stripRightChars stripLeftChars
  have h1 : (l.dropWhile pyIsSpace).Sublist l := List.dropWhile_sublist _
  have h0 : ((l.dropWhile pyIsSpace).reverse.dropWhile pyIsSpace).Sublist
      (l.dropWhile pyIsSpace).reverse := List.dropWhile_sublist pyIsSpace
  have h2 := h0.reverse
  rw [List.reverse_reverse] at h2
  exact h2.trans h1

theorem stripRightChars_isPrefixOf (s : List Char) : (stripRightChars s) <+: s := by
  unfold stripRightChars
  have h : (s.reverse.dropWhile pyIsSpace) <:+ s.reverse := List.dropWhile_suffix pyIsSpace
  have h2 := List.reverse_prefix.mpr h
  rwa [List.reverse_reverse] at h2

theorem stripRightChars_idem (x : List Char) :
    stripRightChars (stripRightChars x) = stripRightChars x := by
  unfold stripRightChars
  rw [List.reverse_reverse, dropWhile_idem]

theorem stripLeft_of_stripRight_stripLeft (l : List Char) :
    stripLeftChars (stripRightChars (stripLeftChars l)) = stripRightChars (stripLeftChars l) := by
  apply dropWhile_eq_self_of_head
  cases ht : stripRightChars (stripLeftChars l) with
  | nil => left; rfl
  | cons a t2 =>
    right
    refine ⟨a, t2, rfl, ?_⟩
    obtain ⟨u, hu⟩ := stripRightChars_isPrefixOf (stripLeftChars l)
    rw [ht] at hu
    rcases dropWhile_head_not pyIsSpace l with h | ⟨b, t3, h, hb⟩
    · rw [show stripLeftChars l = l.dropWhile pyIsSpace from rfl, h] at hu
      cases hu
    · rw [show stripLeftChars l = l.dropWhile pyIsSpace from rfl, h] at hu
      rw [List.cons_append] at hu
      cases hu
      exact hb

theorem pyStripChars_idem (l : List Char) : pyStripChars (pyStripChars l) = pyStripChars l := by
  show stripRightChars (stripLeftChars (stripRightChars (stripLeftChars l))) =
    stripRightChars (stripLeftChars l)
  rw [stripLeft_of_stripRight_stripLeft, stripRightChars_idem]

theorem dashFix_ne_dash {c : Char} (h : ¬((c = '–' || c = '—') = true)) : dashFix c = c :=
  if_neg h

theorem dashFix_idem (c : Char) : dashFix (dashFix c) = dashFix c := by
  by_cases h1 : (c = '–' || c = '—') = true
  · rcases Bool.or_eq_true_iff.mp h1 with h2 | h2
    · rw [show c = '–' from by simpa using h2]
      decide
    · rw [show c = '—' from by simpa using h2]
      decide
  · rw [dashFix_ne_dash h1]
    exact dashFix_ne_dash h1

theorem dashFix_of_mem_dashFix {c : Char} {l : List Char} (h : c ∈ l.map dashFix) :
    dashFix c = c := by
  rcases List.mem_map.mp h with ⟨c0, _, hc⟩
  rw [← hc, dashFix_idem]

theorem noSpace_dashFix (a : Char) : ((dashFix a != ' ') : Bool) = (a != ' ') := by
  by_cases h1 : (a = '–' || a = '—') = true
  · rcases Bool.or_eq_true_iff.mp h1 with h2 | h2
    · rw [show a = '–' from by simpa using h2]
      decide
    · rw [show a = '—' from by simpa using h2]
      decide
  · rw [dashFix_ne_dash h1]

/-- C3 amended: the time-range normalization of src/main.py lines 53-54 is
idempotent, and strings that differ only in dash glyph (hyphen, en dash or
em dash, pointwise) or only in space characters U+0020 normalize to the same
key.  The original claim spoke of internal whitespace generally, but only the
space character is removed by replace, so strings differing in an internal
tab normalize differently (see the counterexample). -/
theorem normalize_time_range_idem_and_invariant :
    (∀ s, normalize_time_range (normalize_time_range s) = normalize_time_range s) ∧
    (∀ s t : String, s.data.map dashFix = t.data.map dashFix →
      normalize_time_range s = normalize_time_range t) ∧
    (∀ s t : String, s.data.filter (fun c => c != ' ') = t.data.filter (fun c => c != ' ') →
      normalize_time_range s = normalize_time_range t) := by
  refine ⟨?_, ?_, ?_⟩
  · intro s
    apply String.ext
    show pyStripChars ((List.map dashFix (pyStripChars
      ((s.data.map dashFix).filter (fun c => c != ' ')))).filter (fun c => c != ' ')) = _
    have hsub := pyStripChars_sublist ((s.data.map dashFix).filter (fun c => c != ' '))
    have hmap : List.map dashFix (pyStripChars ((s.data.map dashFix).filter
        (fun c => c != ' '))) = pyStripChars ((s.data.map dashFix).filter (fun c => c != ' ')) := by
      have hall : ∀ a ∈ pyStripChars ((s.data.map dashFix).filter (fun c => c != ' ')),
          dashFix a = id a := by
        intro a ha
        have ha2 : a ∈ (s.data.map dashFix).filter (fun c => c != ' ') :=
          List.Sublist.mem ha hsub
        exact dashFix_of_mem_dashFix (List.mem_filter.mp ha2).1
      rw [List.map_congr_left hall, List.map_id]
    rw [hmap]
    have hfil : (pyStripChars ((s.data.map dashFix).filter (fun c => c != ' '))).filter
        (fun c => c != ' ') = pyStripChars ((s.data.map dashFix).filter (fun c => c != ' ')) := by
      rw [List.filter_eq_self]
      intro a ha
      exact (List.mem_filter.mp (List.Sublist.mem ha hsub)).2
    rw [hfil, pyStripChars_idem]
    rfl
  · intro s t h
    apply String.ext
    show pyStripChars ((s.data.map dashFix).filter (fun c => c != ' ')) =
      pyStripChars ((t.data.map dashFix).filter (fun c => c != ' '))
    rw [h]
  · intro s t h
    apply String.ext
    show pyStripChars ((s.data.map dashFix).filter (fun c => c != ' ')) =
      pyStripChars ((t.data.map dashFix).filter (fun c => c != ' '))
    rw [List.filter_map, List.filter_map]
    have hs : List.filter ((fun c => c != ' ') ∘ dashFix) s.data =
        List.filter (fun c => c != ' ') s.data :=
      List.filter_congr (fun a _ => noSpace_dashFix a)
    have ht : List.filter ((fun c => c != ' ') ∘ dashFix) t.data =
        List.filter (fun c => c != ' ') t.data :=
      List.filter_congr (fun a _ => noSpace_dashFix a)
    rw [hs, ht, h]

theorem normalize_time_range_idem_and_invariant_witness :
    (("0:00 – 1:00" : String).data.map dashFix =
      ("0:00 - 1:00" : String).data.map dashFix) ∧
    normalize_time_range "0:00 – 1:00" = normalize_time_range "0:00 - 1:00" :=
  ⟨by decide, normalize_time_range_idem_and_invariant.2.1 "0:00 – 1:00" "0:00 - 1:00" (by decide)⟩

/-- C3 counterexample: the strings "0:00\t-1:00" and "0:00 -1:00" differ only
in internal whitespace (a tab against a space: erasing every whitespace
character from either yields the same string, and neither has leading or
trailing whitespace), yet their normalizations differ, because lines 53-54 of
src/main.py remove only the space character U+0020 and the internal tab
survives both replace and strip. -/
theorem normalize_time_range_whitespace_counterexample :
    (("0:00\t-1:00" : String).data.filter (fun c => !(pyIsSpace c)) =
      ("0:00 -1:00" : String).data.filter (fun c => !(pyIsSpace c))) ∧
    normalize_time_range "0:00\t-1:00" ≠ normalize_time_range "0:00 -1:00" := by
  constructor
  · decide
  · decide

-- ## Forward-fill lemmas

theorem ffillRows_get : ∀ (rows : List WideRow) (last : Option String) (i : Nat)
    (row : WideRow), rows.get? i = some row → row.category = none →
    (ffillRows last rows).get? i = some { row with category :=
      match ((rows.take i).filterMap (·.category)).getLast? with
      | some v => some v
      | none => last } := by
  intro rows
  induction rows with
  | nil => intro last i row h _; cases h
  | cons r rs ih =>
    intro last i row h hcat
    cases i with
    | zero =>
      rw [List.get?_cons_zero] at h
      cases h
      simp only [ffillRows]
      rw [hcat]
      rfl
    | succ i =>
      rw [List.get?_cons_succ] at h
      simp only [ffillRows]
      cases hc : r.category with
      | some v =>
        dsimp only
        rw [List.get?_cons_succ, ih (some v) i row h hcat, List.take_succ_cons,
          List.filterMap_cons, hc]
        dsimp only
        rw [getLast?_cons_form]
        cases hfl : ((rs.take i).filterMap (·.category)).getLast? <;> rfl
      | none =>
        dsimp only
        rw [List.get?_cons_succ, ih last i row h hcat, List.take_succ_cons,
          List.filterMap_cons, hc]

theorem meltCell_category {df : FactorsDF} {c : String} {r : WideRow} {rec : FactorRecord}
    (h : meltCell df c r = some rec) : rec.category = r.category := by
  unfold meltCell at h
  cases hf : r.factor with
  | none => rw [hf] at h; cases h
  | some f =>
    rw [hf] at h
    cases hv : cellAt df c r with
    | none => rw [hv] at h; cases h
    | some v =>
      rw [hv] at h
      dsimp only at h
      cases h
      rfl

/-- C9: forward fill of the Factor Category column (src/main.py line 26).
For every row of the wide factor table whose category cell is empty, the
forward-filled table carries at that row the category of the nearest
preceding row with a non-empty category cell (none when no such row exists),
and every FactorRecord melted out of that row (lines 38-46) carries exactly
that category value. -/
theorem forward_fill_category (df : FactorsDF) (i : Nat) (row : WideRow)
    (hrow : df.rows.get? i = some row) (hcat : row.category = none) :
    (ffillRows none df.rows).get? i =
      some { row with category := ((df.rows.take i).filterMap (·.category)).getLast? } ∧
    ∀ c rec, meltCell df c
        { row with category := ((df.rows.take i).filterMap (·.category)).getLast? } =
        some rec →
      rec.category = ((df.rows.take i).filterMap (·.category)).getLast? := by
  constructor
  · rw [ffillRows_get df.rows none i row hrow hcat]
    cases hfl : ((df.rows.take i).filterMap (·.category)).getLast? <;> rfl
  · intro c rec hmelt
    exact meltCell_category hmelt

def c9df : FactorsDF :=
  { cols := ["0:00 - 1:00"]
  , rows := [ ⟨some "Ship Factors", some "Speed", [some 1]⟩
            , ⟨none, some "Draft", [some 2]⟩ ] }

theorem forward_fill_category_witness :
    c9df.rows.get? 1 = some ⟨none, some "Draft", [some 2]⟩ ∧
    (⟨none, some "Draft", [some 2]⟩ : WideRow).category = none ∧
    ((ffillRows none c9df.rows).get? 1 =
      some { (⟨none, some "Draft", [some 2]⟩ : WideRow) with category :=
        ((c9df.rows.take 1).filterMap (·.category)).getLast? } ∧
     ∀ c rec, meltCell c9df c
        { (⟨none, some "Draft", [some 2]⟩ : WideRow) with category :=
          ((c9df.rows.take 1).filterMap (·.category)).getLast? } = some rec →
      rec.category = ((c9df.rows.take 1).filterMap (·.category)).getLast?) :=
  ⟨rfl, rfl, forward_fill_category c9df 1 ⟨none, some "Draft", [some 2]⟩ rfl rfl⟩

-- ## Witness inputs for the event-log and final-score claims

def c4df : FactorsDF :=
  { cols := ["0:00 - 1:00"]
  , rows := [⟨some "Ship Factors", some "Speed", [some 1]⟩] }

def c4ais : List AISRow := [⟨some ⟨3, "2024-01-01 03:45:00"⟩, [("Speed", "7")]⟩]

theorem empty_event_log_gives_empty_ais_data_witness :
    loadAIS none = [] ∧
    ((run (some c4df) none).isOk = (run (some c4df) (some c4ais)).isOk ∧
     ∀ out, run (some c4df) none = .ok out → ∀ hr ∈ out, hr.ais_data = []) :=
  ⟨rfl, empty_event_log_gives_empty_ais_data c4df none (some c4ais) rfl⟩

def c5df : FactorsDF :=
  { cols := ["0:00 - 1:00"]
  , rows := [⟨some "Ship Factors", some "Speed", [some 1]⟩] }

theorem no_final_score_row_gives_null_witness :
    (∀ row ∈ c5df.rows, ∀ s, row.category = some s →
      pyLowerS (pyStripS s) ≠ "final score") ∧
    (finalScoreMap c5df = [] ∧ ∀ aisFile out, run (some c5df) aisFile = .ok out →
      ∀ hr ∈ out, hr.final_score = none) := by
  have hhyp : ∀ row ∈ c5df.rows, ∀ s, row.category = some s →
      pyLowerS (pyStripS s) ≠ "final score" := by
    intro row hrow s hs
    simp only [c5df, List.mem_cons, List.not_mem_nil, or_false] at hrow
    subst hrow
    dsimp only at hs
    injection hs with h2
    subst h2
    decide
  exact ⟨hhyp, no_final_score_row_gives_null c5df hhyp⟩
